import Mathlib

/-!
Shallow embedding of the MCF job-crawler repository (`src/mcf`), covering
the DuckDB-backed store (`mcf/lib/storage/duckdb_store.py`), the CLI
commands that the claims mention (`mcf/cli/cli.py`), and the HTTP query
service (`mcf/api/server.py`).

Modelling conventions:
* SQL `NULL`-able columns become `Option _` fields; SQL `COALESCE` becomes
  `coalesce` below.
* Timestamps are abstract `Nat` instants except where the claim is about
  the rendered timestamp string (`begin_run`), where a broken-down UTC
  `Timestamp` structure is used.
* The `jobs` and `job_embeddings` tables are association lists keyed by
  `job_uuid` (their SQL `PRIMARY KEY`).
* Embedding vectors travel through `json.dumps`/`json.loads`, which
  round-trips Python floats exactly (shortest-repr serialization); the
  numeric values are modelled as `ℚ` and the JSON round trip as the
  identity on the parsed list.
-/

namespace MCF

/-- SQL two-argument `COALESCE`: the first non-NULL argument. -/
def coalesce {α : Type} : Option α → Option α → Option α
  | some a, _ => some a
  | none, b => b

/-- One row of the `jobs` table (duckdb_store.py, `ensure_schema`). -/
structure Job where
  job_uuid : String
  first_seen_run_id : String
  last_seen_run_id : String
  is_active : Bool
  first_seen_at : Nat
  last_seen_at : Nat
  title : Option String
  company_name : Option String
  location : Option String
  description : Option String
  raw_json : Option String
  deriving DecidableEq, Repr

/-- One row of the `job_embeddings` table, minus its `job_uuid` key
(duckdb_store.py, `ensure_schema`).  `embedding` is the parsed content of
the `embedding_json` column. -/
structure EmbeddingRow where
  model_name : String
  embedding : List ℚ
  dim : Nat
  embedded_at : Nat
  deriving DecidableEq, Repr

/-- The mutable state of a `DuckDBStore`: the two tables the claims are
about, keyed by their primary keys. -/
structure StoreState where
  jobs : List Job
  embeddings : List (String × EmbeddingRow)
  deriving DecidableEq, Repr

/-- `SELECT * FROM jobs WHERE job_uuid = uuid` (at most one row under the
primary-key invariant). -/
def getJob (s : StoreState) (uuid : String) : Option Job :=
  s.jobs.find? (fun j => j.job_uuid == uuid)

/-- `SELECT * FROM job_embeddings WHERE job_uuid = uuid`. -/
def getEmbedding (s : StoreState) (uuid : String) : Option EmbeddingRow :=
  (s.embeddings.find? (fun e => e.1 == uuid)).map Prod.snd

/-- `DuckDBStore.upsert_new_job_detail` (duckdb_store.py lines 154-194):
`INSERT ... ON CONFLICT (job_uuid) DO UPDATE SET` with `COALESCE` of the
excluded (new) value over the stored one for `title`, `company_name`,
`location`, `description` and `raw_json`; `is_active` forced `TRUE`;
last-seen bookkeeping refreshed.  The Python function always binds
`raw_json` to `json.dumps(raw_json)`, never NULL, so the new `raw_json`
is `some raw_json` here.  The `DO UPDATE SET` clause is `upsertRow`,
applied to the conflicting row (rows with another `job_uuid` are
untouched). -/
def upsertRow (run_id job_uuid : String)
    (title company_name location description : Option String)
    (raw_json : String) (now : Nat) (j : Job) : Job :=
  if j.job_uuid == job_uuid then
    { j with
      last_seen_run_id := run_id
      is_active := true
      last_seen_at := now
      title := coalesce title j.title
      company_name := coalesce company_name j.company_name
      location := coalesce location j.location
      description := coalesce description j.description
      raw_json := coalesce (some raw_json) j.raw_json }
  else j

def upsert_new_job_detail (s : StoreState) (run_id job_uuid : String)
    (title company_name location description : Option String)
    (raw_json : String) (now : Nat) : StoreState :=
  if s.jobs.any (fun j => j.job_uuid == job_uuid) then
    { s with jobs := (s.jobs.map
        (upsertRow run_id job_uuid title company_name location description
          raw_json now)) }
  else
    { s with jobs := s.jobs ++
        [{ job_uuid := job_uuid
           first_seen_run_id := run_id
           last_seen_run_id := run_id
           is_active := true
           first_seen_at := now
           last_seen_at := now
           title := title
           company_name := company_name
           location := location
           description := description
           raw_json := some raw_json }] }

/-- `DuckDBStore.touch_jobs` (duckdb_store.py lines 196-204):
`UPDATE jobs SET last_seen_run_id = ?, last_seen_at = ?, is_active = TRUE
WHERE job_uuid = ?` for each uuid of the iterable; `touchRow` is the row
effect (rows whose uuid is not among the touched ones are untouched). -/
def touchRow (run_id : String) (job_uuids : List String) (now : Nat)
    (j : Job) : Job :=
  if job_uuids.contains j.job_uuid then
    { j with last_seen_run_id := run_id, last_seen_at := now, is_active := true }
  else j

def touch_jobs (s : StoreState) (run_id : String) (job_uuids : List String)
    (now : Nat) : StoreState :=
  { s with jobs := s.jobs.map (touchRow run_id job_uuids now) }

/-- `DuckDBStore.deactivate_jobs` (duckdb_store.py lines 206-214): same
update but `is_active = FALSE`; `deactivateRow` is the row effect. -/
def deactivateRow (run_id : String) (job_uuids : List String) (now : Nat)
    (j : Job) : Job :=
  if job_uuids.contains j.job_uuid then
    { j with last_seen_run_id := run_id, last_seen_at := now, is_active := false }
  else j

def deactivate_jobs (s : StoreState) (run_id : String) (job_uuids : List String)
    (now : Nat) : StoreState :=
  { s with jobs := s.jobs.map (deactivateRow run_id job_uuids now) }

/-- `DuckDBStore.active_job_uuids` (duckdb_store.py lines 137-139):
`SELECT job_uuid FROM jobs WHERE is_active = TRUE` (a set; modelled as the
list of uuids, membership standing for set membership). -/
def active_job_uuids (s : StoreState) : List String :=
  (s.jobs.filter (fun j => j.is_active)).map (fun j => j.job_uuid)

/-- Row filter of the `jobs_missing_embeddings` query:
`j.is_active = TRUE AND e.job_uuid IS NULL AND j.description IS NOT NULL`,
with `e` the `LEFT JOIN job_embeddings` partner. -/
def missingEmbeddingFilter (s : StoreState) (j : Job) : Bool :=
  j.is_active && (getEmbedding s j.job_uuid).isNone && j.description.isSome

/-- `DuckDBStore.jobs_missing_embeddings` (duckdb_store.py lines 216-228):
the filtered active/description-bearing/embedding-less rows as
`(job_uuid, description)` pairs; the SQL `LIMIT` clause is appended only
under Python `if limit and limit > 0` (so `None`, `0` and negative limits
leave the query uncapped). -/
def jobs_missing_embeddings (s : StoreState) (limit : Option Int) :
    List (String × Option String) :=
  let rows := (s.jobs.filter (missingEmbeddingFilter s)).map
    (fun j => (j.job_uuid, j.description))
  match limit with
  | some l => if l ≠ 0 ∧ l > 0 then rows.take l.toNat else rows
  | none => rows

/-- The `job_embeddings` row bound by `upsert_embedding`: model name,
vector (JSON-encoded in the column), `dim = len(emb_list)` and
timestamp. -/
def newEmbeddingRow (model_name : String) (embedding : List ℚ)
    (now : Nat) : EmbeddingRow :=
  { model_name := model_name
    embedding := embedding
    dim := embedding.length
    embedded_at := now }

/-- `DuckDBStore.upsert_embedding` (duckdb_store.py lines 230-244):
`INSERT ... ON CONFLICT (job_uuid) DO UPDATE SET` replacing model name,
JSON-encoded vector, `dim` and timestamp. -/
def upsert_embedding (s : StoreState) (job_uuid model_name : String)
    (embedding : List ℚ) (now : Nat) : StoreState :=
  if s.embeddings.any (fun e => e.1 == job_uuid) then
    { s with embeddings := (s.embeddings.map (fun e =>
        if e.1 == job_uuid then (e.1, newEmbeddingRow model_name embedding now)
        else e)) }
  else
    { s with embeddings :=
        s.embeddings ++ [(job_uuid, newEmbeddingRow model_name embedding now)] }

/-- `DuckDBStore.get_active_job_embeddings` (duckdb_store.py lines
246-258): inner `JOIN` of active jobs with their embedding rows, yielding
`(job_uuid, title or "", json.loads(embedding_json))` triples. -/
def get_active_job_embeddings (s : StoreState) : List (String × String × List ℚ) :=
  s.jobs.filterMap (fun j =>
    if j.is_active then
      (getEmbedding s j.job_uuid).map
        (fun e => (j.job_uuid, j.title.getD "", e.embedding))
    else none)

/-! ### Run identifiers (`begin_run`, duckdb_store.py lines 98-117)

`begin_run` computes `run_id = started_at.strftime("%Y%m%dT%H%M%S.%fZ")`
for `started_at = datetime.now(timezone.utc)`.  The broken-down UTC time
is modelled as a `Timestamp`; `strftime` renders each field zero-padded
to its fixed width (`%Y` 4, `%m %d %H %M %S` 2, `%f` 6 digits). -/

/-- A broken-down UTC instant as produced by `datetime.now(timezone.utc)`. -/
structure Timestamp where
  year : Nat
  month : Nat
  day : Nat
  hour : Nat
  minute : Nat
  second : Nat
  micro : Nat
  deriving DecidableEq, Repr

/-- Field ranges of a Python `datetime` (MINYEAR/MAXYEAR, calendar and
clock bounds); years below 1000 are excluded so that `%Y` is exactly four
digits. -/
def Timestamp.Valid (t : Timestamp) : Prop :=
  1000 ≤ t.year ∧ t.year ≤ 9999 ∧
  1 ≤ t.month ∧ t.month ≤ 12 ∧
  1 ≤ t.day ∧ t.day ≤ 31 ∧
  t.hour < 24 ∧ t.minute < 60 ∧ t.second < 60 ∧ t.micro < 1000000

instance (t : Timestamp) : Decidable t.Valid := by
  unfold Timestamp.Valid; infer_instance

/-- The ASCII digit character of `d` (for `d ≤ 9`). -/
def digitChar (d : Nat) : Char :=
  match d with
  | 0 => '0' | 1 => '1' | 2 => '2' | 3 => '3' | 4 => '4'
  | 5 => '5' | 6 => '6' | 7 => '7' | 8 => '8' | _ => '9'

/-- `n` rendered in decimal, zero-padded to exactly `w` digits
(most-significant first); the rendering of every zero-padded `strftime`
field. -/
def padNat : Nat → Nat → List Char
  | 0, _ => []
  | w + 1, n => padNat w (n / 10) ++ [digitChar (n % 10)]

/-- The character list of `strftime("%Y%m%dT%H%M%S.%fZ")`. -/
def runIdChars (t : Timestamp) : List Char :=
  padNat 4 t.year ++ (padNat 2 t.month ++ (padNat 2 t.day ++
    ('T' :: (padNat 2 t.hour ++ (padNat 2 t.minute ++ (padNat 2 t.second ++
      ('.' :: (padNat 6 t.micro ++ ['Z']))))))))

/-- The run identifier string computed by `begin_run`:
`started_at.strftime("%Y%m%dT%H%M%S.%fZ")`. -/
def runId (t : Timestamp) : String :=
  ⟨runIdChars t⟩

/-- Chronological key of a UTC instant: wall-clock order of valid
timestamps is numeric order of this key (each field's bound fits its
radix position). -/
def chronoKey (t : Timestamp) : Nat :=
  ((((t.year * 100 + t.month) * 100 + t.day) * 100 + t.hour) * 100 +
    t.minute) * 100000000 + t.second * 1000000 + t.micro

/-! ### `match-resume` (cli.py lines 274-335)

The command embeds the resume, loads `get_active_job_embeddings()`,
scores each job by `np.dot(resume_vec, job_vec)`, sorts the
`(score, job_uuid, title)` triples descending by score (Python's stable
`list.sort(reverse=True, key=score)`) and keeps `scored[: max(1, int(top))]`.
`np.float32` arithmetic is modelled over `ℚ`. -/

/-- `np.dot` of two vectors. -/
def dot (a b : List ℚ) : ℚ :=
  (List.zipWith (· * ·) a b).sum

/-- Descending comparison on the score component.  Python's
`scored.sort(reverse=True, key=score)` is the stable sort by this
relation; any stable sort realizes it, and it is modelled by the stable
`List.insertionSort`. -/
def scoreRel (a b : ℚ × String × String) : Prop :=
  b.1 ≤ a.1

instance : DecidableRel scoreRel :=
  fun a b => inferInstanceAs (Decidable (b.1 ≤ a.1))

instance : IsTotal (ℚ × String × String) scoreRel :=
  ⟨fun a b => le_total b.1 a.1⟩

instance : IsTrans (ℚ × String × String) scoreRel :=
  ⟨fun _ _ _ hab hbc => le_trans hbc hab⟩

/-- The ranked list printed by `match_resume`: one `(score, job_uuid,
title)` triple per active job embedding, scored by dot product, stably
sorted by descending score, truncated to `scored[: max(1, int(top))]`. -/
def matchResume (resume_vec : List ℚ) (jobs : List (String × String × List ℚ))
    (top : Int) : List (ℚ × String × String) :=
  let scored := jobs.map (fun j => (dot resume_vec j.2.2, j.1, j.2.1))
  let sorted := scored.insertionSort scoreRel
  sorted.take (max 1 top).toNat

/-! ### HTTP query service (server.py)

The handlers call the storage read surface (`search_jobs`, `get_job`) of
the networked store; that store's module (`postgres_store.py`) is not
under `src/`, so those two methods are modelled from the spec. -/

/-- Modelled from the spec: `Storage.search_jobs` (implemented by the
networked store, whose module is not under `src/`): "paginated job search
by optional category/keyword filter".  The category/keyword filter is
abstracted as a row predicate `matchesRow`; pagination returns the `limit`-
sized page at `offset` of the matching rows. -/
def search_jobs (s : StoreState) (matchesRow : Job → Bool)
    (limit offset : Nat) : List Job :=
  ((s.jobs.filter matchesRow).drop offset).take limit

/-- Response body of `GET /api/jobs`. -/
structure JobsResponse where
  jobs : List Job
  total : Nat
  deriving DecidableEq, Repr

/-- `list_jobs` (server.py lines 49-54): returns
`{"jobs": jobs, "total": len(jobs)}` for
`jobs = store.search_jobs(limit=limit, offset=offset, ...)`. -/
def list_jobs (s : StoreState) (matchesRow : Job → Bool)
    (limit offset : Nat) : JobsResponse :=
  let jobs := search_jobs s matchesRow limit offset
  { jobs := jobs, total := jobs.length }

/-- Modelled from the spec: `Storage.get_job` (implemented by the
networked store, whose module is not under `src/`): "fetch one job by
identifier", absent when the identifier is unknown.  It coincides with
the primary-key lookup `getJob`. -/
def store_get_job (s : StoreState) (job_uuid : String) : Option Job :=
  getJob s job_uuid

/-- `get_job` (server.py lines 57-64): `404` via `HTTPException` when the
store returns no job, otherwise the job record.  The error branch carries
the HTTP status code. -/
def api_get_job (s : StoreState) (job_uuid : String) : Except Nat Job :=
  match store_get_job s job_uuid with
  | none => .error 404
  | some j => .ok j

/-! ### `crawl-incremental` storage-backend selection -/

/-- A selected storage backend: the embedded single-file store at a local
path, or the networked store at a connection string. -/
inductive Backend where
  | localFile (path : String)
  | remoteConn (conn : String)
  deriving DecidableEq, Repr

/-- Modelled from the spec: the final `crawl-incremental` variant's
storage-backend selection.  The spec records that the source shows
evolving CLI variants — the variant under `src/` (cli.py lines 138-218)
still has only the local `--db` option (default `data/mcf.duckdb`), while
the final variant adds a mutually exclusive remote-connection-string
option, with "remote wins if both given, else local path, else a
hardcoded default path" as the intended behavior.  That final variant is
not under `src/`. -/
def selectBackend (remote : Option String) (db : Option String) : Backend :=
  match remote with
  | some conn => .remoteConn conn
  | none => .localFile (db.getD "data/mcf.duckdb")

/-! ### Helper lemmas -/

/-- `find?` commutes with mapping a function that does not change the
predicate's verdict (used for SQL `UPDATE`s, which never change the
primary key of a row). -/
theorem find?_map_comm {α : Type} (l : List α) (p : α → Bool) (f : α → α)
    (hf : ∀ a, p (f a) = p a) : (l.map f).find? p = (l.find? p).map f := by
  induction l with
  | nil => rfl
  | cons a as ih =>
    simp only [List.map_cons]
    cases hpa : p a with
    | true =>
      rw [List.find?_cons_of_pos _ (by rw [hf a, hpa]),
        List.find?_cons_of_pos _ hpa]
      rfl
    | false =>
      rw [List.find?_cons_of_neg _ (by simp [hf a, hpa]),
        List.find?_cons_of_neg _ (by simp [hpa]), ih]

/-- Membership in `active_job_uuids` is existence of an active row with
that uuid. -/
theorem mem_active_iff (s : StoreState) (uuid : String) :
    uuid ∈ active_job_uuids s ↔
      ∃ j, j ∈ s.jobs ∧ j.is_active = true ∧ j.job_uuid = uuid := by
  constructor
  · intro h
    obtain ⟨j, hj, rfl⟩ := List.mem_map.1 h
    obtain ⟨hmem, hact⟩ := List.mem_filter.1 hj
    exact ⟨j, hmem, hact, rfl⟩
  · rintro ⟨j, hmem, hact, rfl⟩
    exact List.mem_map.2 ⟨j, List.mem_filter.2 ⟨hmem, hact⟩, rfl⟩

theorem contains_of_mem {l : List String} {a : String} (h : a ∈ l) :
    l.contains a = true := by
  simp [List.contains, h]

/-! ### C1 -/

/-- C1: on an upsert over an existing job row, `title`, `company_name`,
`location` and `description` are overwritten only when the new value is
non-absent and kept otherwise (SQL `COALESCE(excluded.x, jobs.x)`);
`raw_json` — always bound to the non-absent `json.dumps(raw_json)` — is
overwritten; last-seen bookkeeping is refreshed and the row is marked
active. -/
theorem upsert_overwrites_only_nonabsent
    (s : StoreState) (run_id uuid : String)
    (title company_name location description : Option String)
    (raw_json : String) (now : Nat) (j : Job)
    (h : getJob s uuid = some j) :
    getJob (upsert_new_job_detail s run_id uuid title company_name location
        description raw_json now) uuid =
      some { j with
        last_seen_run_id := run_id
        is_active := true
        last_seen_at := now
        title := match title with | some v => some v | none => j.title
        company_name := match company_name with | some v => some v | none => j.company_name
        location := match location with | some v => some v | none => j.location
        description := match description with | some v => some v | none => j.description
        raw_json := some raw_json } := by
  have hco : ∀ (x y : Option String),
      coalesce x y = match x with | some v => some v | none => y := by
    intro x y; cases x <;> rfl
  unfold getJob at h
  have hmem := List.mem_of_find?_eq_some h
  have hpj : (j.job_uuid == uuid) = true := by
    have := List.find?_some h; simpa using this
  have hany : s.jobs.any (fun j => j.job_uuid == uuid) = true :=
    List.any_eq_true.2 ⟨j, hmem, hpj⟩
  have hjobs : (upsert_new_job_detail s run_id uuid title company_name
      location description raw_json now).jobs =
      s.jobs.map (upsertRow run_id uuid title company_name location
        description raw_json now) := by
    unfold upsert_new_job_detail
    rw [if_pos hany]
  unfold getJob
  rw [hjobs]
  rw [find?_map_comm _ _ _ (fun a => by
    unfold upsertRow
    by_cases hc : (a.job_uuid == uuid) = true <;> simp [hc])]
  rw [h]
  show some (upsertRow run_id uuid title company_name location description
    raw_json now j) = _
  unfold upsertRow
  rw [if_pos hpj]
  simp only [hco]

/-- A concrete one-job store whose stored description is `"D1"`. -/
def jobD1 : Job :=
  { job_uuid := "u1"
    first_seen_run_id := "r1"
    last_seen_run_id := "r1"
    is_active := true
    first_seen_at := 0
    last_seen_at := 0
    title := some "T1"
    company_name := some "C1"
    location := none
    description := some "D1"
    raw_json := some "raw1" }

def storeD1 : StoreState :=
  { jobs := [jobD1], embeddings := [] }

/-- C1 witness: upserting with an absent description keeps `"D1"`;
upserting with description `"D2"` stores `"D2"`. -/
theorem upsert_overwrites_only_nonabsent_witness :
    (∃ j', getJob (upsert_new_job_detail storeD1 "r2" "u1" none none none
        none "raw2" 5) "u1" = some j' ∧ j'.description = some "D1") ∧
    (∃ j', getJob (upsert_new_job_detail storeD1 "r2" "u1" none none none
        (some "D2") "raw2" 5) "u1" = some j' ∧ j'.description = some "D2") :=
  ⟨⟨_, upsert_overwrites_only_nonabsent storeD1 "r2" "u1" none none none
      none "raw2" 5 jobD1 rfl, rfl⟩,
    ⟨_, upsert_overwrites_only_nonabsent storeD1 "r2" "u1" none none none
      (some "D2") "raw2" 5 jobD1 rfl, rfl⟩⟩

/-! ### C2 -/

/-- C2: after `deactivate_jobs` covers a stored job's uuid, the job is
excluded from `active_job_uuids` but its row still exists (deactivation
never deletes); a later `touch_jobs` or `upsert_new_job_detail` on the
same uuid makes it active again. -/
theorem deactivate_reversible
    (s : StoreState) (j : Job) (uuid run1 run2 run3 : String)
    (us1 us2 : List String) (now1 now2 now3 : Nat)
    (title company_name location description : Option String) (raw_json : String)
    (hj : getJob s uuid = some j) (h1 : uuid ∈ us1) (h2 : uuid ∈ us2) :
    uuid ∉ active_job_uuids (deactivate_jobs s run1 us1 now1) ∧
    (getJob (deactivate_jobs s run1 us1 now1) uuid).isSome = true ∧
    uuid ∈ active_job_uuids
      (touch_jobs (deactivate_jobs s run1 us1 now1) run2 us2 now2) ∧
    uuid ∈ active_job_uuids
      (upsert_new_job_detail (deactivate_jobs s run1 us1 now1) run3 uuid
        title company_name location description raw_json now3) := by
  unfold getJob at hj
  have hmem := List.mem_of_find?_eq_some hj
  have hpj : (j.job_uuid == uuid) = true := by
    have := List.find?_some hj; simpa using this
  have hju : j.job_uuid = uuid := by simpa using hpj
  have hc1 : us1.contains uuid = true := contains_of_mem h1
  have hc2 : us2.contains uuid = true := contains_of_mem h2
  have hdkey : ∀ a : Job, (deactivateRow run1 us1 now1 a).job_uuid = a.job_uuid := by
    intro a; unfold deactivateRow
    by_cases hc : us1.contains a.job_uuid = true
    · rw [if_pos hc]
    · rw [if_neg hc]
  have htkey : ∀ a : Job, (touchRow run2 us2 now2 a).job_uuid = a.job_uuid := by
    intro a; unfold touchRow
    by_cases hc : us2.contains a.job_uuid = true
    · rw [if_pos hc]
    · rw [if_neg hc]
  have hs1jobs : (deactivate_jobs s run1 us1 now1).jobs =
      s.jobs.map (deactivateRow run1 us1 now1) := rfl
  refine ⟨?_, ?_, ?_, ?_⟩
  · -- excluded from the active set
    intro hact
    obtain ⟨r, hr, hract, hruuid⟩ := (mem_active_iff _ _).1 hact
    rw [hs1jobs] at hr
    obtain ⟨r0, hr0, rfl⟩ := List.mem_map.1 hr
    by_cases hc : us1.contains r0.job_uuid = true
    · rw [deactivateRow, if_pos hc] at hract
      simp at hract
    · have h0 : deactivateRow run1 us1 now1 r0 = r0 := by
        rw [deactivateRow, if_neg hc]
      rw [h0] at hruuid
      rw [hruuid] at hc
      exact hc hc1
  · -- the row is not deleted
    unfold getJob
    rw [hs1jobs, find?_map_comm _ _ _ (fun a => by rw [hdkey a]), hj]
    rfl
  · -- touch_jobs reactivates
    refine (mem_active_iff _ _).2
      ⟨touchRow run2 us2 now2 (deactivateRow run1 us1 now1 j), ?_, ?_, ?_⟩
    · exact List.mem_map.2 ⟨_, List.mem_map.2 ⟨j, hmem, rfl⟩, rfl⟩
    · have hcond : us2.contains ((deactivateRow run1 us1 now1 j).job_uuid) = true := by
        rw [hdkey j, hju]; exact hc2
      rw [touchRow, if_pos hcond]
    · rw [htkey _, hdkey _, hju]
  · -- upsert_new_job_detail reactivates
    have hfind : (deactivate_jobs s run1 us1 now1).jobs.find?
        (fun r => r.job_uuid == uuid) = some (deactivateRow run1 us1 now1 j) := by
      rw [hs1jobs, find?_map_comm _ _ _ (fun a => by rw [hdkey a]), hj]
      rfl
    have hbeq : ((deactivateRow run1 us1 now1 j).job_uuid == uuid) = true := by
      rw [hdkey j]; exact hpj
    have hany : (deactivate_jobs s run1 us1 now1).jobs.any
        (fun r => r.job_uuid == uuid) = true :=
      List.any_eq_true.2 ⟨_, List.mem_of_find?_eq_some hfind, hbeq⟩
    unfold upsert_new_job_detail
    rw [if_pos hany]
    refine (mem_active_iff _ _).2
      ⟨upsertRow run3 uuid title company_name location description raw_json now3
        (deactivateRow run1 us1 now1 j), ?_, ?_, ?_⟩
    · exact List.mem_map.2 ⟨_, List.mem_map.2 ⟨j, hmem, rfl⟩, rfl⟩
    · rw [upsertRow, if_pos hbeq]
    · have hukey : ∀ a : Job, (upsertRow run3 uuid title company_name location
          description raw_json now3 a).job_uuid = a.job_uuid := by
        intro a; unfold upsertRow
        by_cases hc : (a.job_uuid == uuid) = true
        · rw [if_pos hc]
        · rw [if_neg hc]
      rw [hukey _, hdkey _, hju]

/-- C2 witness: the claim instantiated on the concrete one-job store. -/
theorem deactivate_reversible_witness :
    "u1" ∉ active_job_uuids (deactivate_jobs storeD1 "rA" ["u1"] 1) ∧
    (getJob (deactivate_jobs storeD1 "rA" ["u1"] 1) "u1").isSome = true ∧
    "u1" ∈ active_job_uuids
      (touch_jobs (deactivate_jobs storeD1 "rA" ["u1"] 1) "rB" ["u1"] 2) ∧
    "u1" ∈ active_job_uuids
      (upsert_new_job_detail (deactivate_jobs storeD1 "rA" ["u1"] 1) "rC" "u1"
        none none none none "raw3" 3) :=
  deactivate_reversible storeD1 jobD1 "u1" "rA" "rB" "rC" ["u1"] ["u1"] 1 2 3
    none none none none "raw3" rfl (by simp) (by simp)

/-! ### C5 -/

/-- Unfolding equations of `jobs_missing_embeddings`. -/
theorem jobs_missing_embeddings_none (s : StoreState) :
    jobs_missing_embeddings s none =
      (s.jobs.filter (missingEmbeddingFilter s)).map
        (fun j => (j.job_uuid, j.description)) := rfl

theorem jobs_missing_embeddings_some (s : StoreState) (l : Int) :
    jobs_missing_embeddings s (some l) =
      if l ≠ 0 ∧ l > 0 then
        ((s.jobs.filter (missingEmbeddingFilter s)).map
          (fun j => (j.job_uuid, j.description))).take l.toNat
      else
        (s.jobs.filter (missingEmbeddingFilter s)).map
          (fun j => (j.job_uuid, j.description)) := rfl

/-- C5: a job row appears in `jobs_missing_embeddings` exactly when it is
active, has a non-absent description and has no `job_embeddings` row: a
row failing any condition never appears (under any limit), and a row
satisfying all of them always appears in the uncapped query. -/
theorem missing_embeddings_mem_iff (s : StoreState) (j : Job)
    (hnd : (s.jobs.map Job.job_uuid).Nodup) (hj : j ∈ s.jobs) :
    (∀ lim : Option Int,
      (j.job_uuid, j.description) ∈ jobs_missing_embeddings s lim →
        j.is_active = true ∧ j.description.isSome = true ∧
          getEmbedding s j.job_uuid = none) ∧
    (j.is_active = true ∧ j.description.isSome = true ∧
        getEmbedding s j.job_uuid = none →
      (j.job_uuid, j.description) ∈ jobs_missing_embeddings s none) := by
  have hsub : ∀ lim : Option Int, ∀ x, x ∈ jobs_missing_embeddings s lim →
      x ∈ (s.jobs.filter (missingEmbeddingFilter s)).map
        (fun j => (j.job_uuid, j.description)) := by
    intro lim x hx
    match lim with
    | none => exact hx
    | some l =>
      rw [jobs_missing_embeddings_some] at hx
      by_cases hc : l ≠ 0 ∧ l > 0
      · rw [if_pos hc] at hx
        exact List.take_subset _ _ hx
      · rw [if_neg hc] at hx
        exact hx
  constructor
  · intro lim hx
    obtain ⟨j', hj'filter, hpair⟩ := List.mem_map.1 (hsub lim _ hx)
    obtain ⟨hj'mem, hj'pred⟩ := List.mem_filter.1 hj'filter
    have huuid : j'.job_uuid = j.job_uuid := congrArg Prod.fst hpair
    have : j' = j := List.inj_on_of_nodup_map hnd hj'mem hj huuid
    subst this
    unfold missingEmbeddingFilter at hj'pred
    simp only [Bool.and_eq_true] at hj'pred
    exact ⟨hj'pred.1.1, hj'pred.2,
      Option.isNone_iff_eq_none.1 hj'pred.1.2⟩
  · rintro ⟨hact, hdesc, hemb⟩
    have hpred : missingEmbeddingFilter s j = true := by
      unfold missingEmbeddingFilter
      simp [hact, hdesc, hemb]
    exact List.mem_map.2 ⟨j, List.mem_filter.2 ⟨hj, hpred⟩, rfl⟩

/-- C5 witness: the claim instantiated on the concrete one-job store, in
which `jobD1` is active, has a description and no embedding row. -/
theorem missing_embeddings_mem_iff_witness :
    (∀ lim : Option Int,
      (jobD1.job_uuid, jobD1.description) ∈ jobs_missing_embeddings storeD1 lim →
        jobD1.is_active = true ∧ jobD1.description.isSome = true ∧
          getEmbedding storeD1 jobD1.job_uuid = none) ∧
    (jobD1.is_active = true ∧ jobD1.description.isSome = true ∧
        getEmbedding storeD1 jobD1.job_uuid = none →
      (jobD1.job_uuid, jobD1.description) ∈ jobs_missing_embeddings storeD1 none) :=
  missing_embeddings_mem_iff storeD1 jobD1 (by decide) (by decide)

/-! ### C10 -/

/-- C10: a limit of `0` or below leaves `jobs_missing_embeddings` uncapped
(identical to passing no limit); only a strictly positive limit caps the
result, to its first `limit` rows. -/
theorem missing_embeddings_limit_semantics (s : StoreState) (l : Int) :
    (l ≤ 0 → jobs_missing_embeddings s (some l) = jobs_missing_embeddings s none) ∧
    (0 < l → jobs_missing_embeddings s (some l) =
      (jobs_missing_embeddings s none).take l.toNat) := by
  constructor
  · intro hl
    rw [jobs_missing_embeddings_some, if_neg (by omega),
      jobs_missing_embeddings_none]
  · intro hl
    rw [jobs_missing_embeddings_some, if_pos ⟨by omega, hl⟩,
      jobs_missing_embeddings_none]

/-- C10 witness: limits `-1` and `0` return the full result; limit `1`
caps it. -/
theorem missing_embeddings_limit_semantics_witness :
    (jobs_missing_embeddings storeD1 (some (-1)) =
      jobs_missing_embeddings storeD1 none) ∧
    (jobs_missing_embeddings storeD1 (some 0) =
      jobs_missing_embeddings storeD1 none) ∧
    (jobs_missing_embeddings storeD1 (some 1) =
      (jobs_missing_embeddings storeD1 none).take 1) :=
  ⟨(missing_embeddings_limit_semantics storeD1 (-1)).1 (by decide),
    (missing_embeddings_limit_semantics storeD1 0).1 (by decide),
    (missing_embeddings_limit_semantics storeD1 1).2 (by decide)⟩

/-! ### C6 -/

/-- The `jobs` table is untouched by `upsert_embedding`. -/
theorem upsert_embedding_jobs (s : StoreState) (uuid model : String)
    (emb : List ℚ) (now : Nat) :
    (upsert_embedding s uuid model emb now).jobs = s.jobs := by
  unfold upsert_embedding
  by_cases h : (s.embeddings.any (fun e => e.1 == uuid)) = true
  · rw [if_pos h]
  · rw [if_neg h]

/-- After `upsert_embedding`, the embedding row stored under the job's
uuid is exactly the freshly bound row (replacement on conflict). -/
theorem getEmbedding_upsert (s : StoreState) (uuid model : String)
    (emb : List ℚ) (now : Nat) :
    getEmbedding (upsert_embedding s uuid model emb now) uuid =
      some (newEmbeddingRow model emb now) := by
  unfold upsert_embedding getEmbedding
  by_cases h : (s.embeddings.any (fun e => e.1 == uuid)) = true
  · rw [if_pos h]
    obtain ⟨e0, he0, hpe0⟩ := List.any_eq_true.1 h
    cases hfind : s.embeddings.find? (fun e => e.1 == uuid) with
    | none =>
      exact absurd hpe0 (by simpa using List.find?_eq_none.1 hfind e0 he0)
    | some e1 =>
    have hpe1 : (e1.1 == uuid) = true := by
      have := List.find?_some hfind; simpa using this
    rw [show ({ s with embeddings := (s.embeddings.map (fun e =>
        if e.1 == uuid then (e.1, newEmbeddingRow model emb now) else e)) }
          : StoreState).embeddings = s.embeddings.map (fun e =>
        if e.1 == uuid then (e.1, newEmbeddingRow model emb now) else e)
      from rfl]
    rw [find?_map_comm _ _ _ (fun a => by
      by_cases hc : (a.1 == uuid) = true <;> simp [hc])]
    rw [hfind]
    show some (if e1.1 == uuid then (e1.1, newEmbeddingRow model emb now)
      else e1).2 = _
    rw [if_pos hpe1]
  · rw [if_neg h]
    have hfalse : s.embeddings.any (fun e => e.1 == uuid) = false := by
      simp only [Bool.not_eq_true] at h; exact h
    have hnone : s.embeddings.find? (fun e => e.1 == uuid) = none :=
      List.find?_eq_none.2 (by
        intro x hx
        simpa using List.any_eq_false.1 hfalse x hx)
    rw [show ({ s with embeddings :=
        s.embeddings ++ [(uuid, newEmbeddingRow model emb now)] }
          : StoreState).embeddings =
        s.embeddings ++ [(uuid, newEmbeddingRow model emb now)] from rfl]
    rw [List.find?_append, hnone, Option.none_or,
      List.find?_cons_of_pos _ (by simp)]
    rfl

/-- A list of key-value pairs with no duplicate keys holds at most one
pair with a given key. -/
theorem length_filter_key_le_one {β : Type} (l : List (String × β))
    (hnd : (l.map Prod.fst).Nodup) (uuid : String) :
    (l.filter (fun e => e.1 == uuid)).length ≤ 1 := by
  induction l with
  | nil => simp
  | cons e es ih =>
    simp only [List.map_cons, List.nodup_cons] at hnd
    by_cases he : (e.1 == uuid) = true
    · have hrest : es.filter (fun x => x.1 == uuid) = [] := by
        rw [List.filter_eq_nil_iff]
        intro x hx hpx
        have hx1 : x.1 = uuid := by simpa using hpx
        have he1 : e.1 = uuid := by simpa using he
        exact hnd.1 (he1 ▸ hx1 ▸ List.mem_map.2 ⟨x, hx, rfl⟩)
      simp [List.filter_cons, he, hrest]
    · simp only [List.filter_cons, he, if_false]
      exact ih hnd.2

/-- C6: `upsert_embedding` with a vector of length `K` stores a row whose
`dim` is `K` (the length of the stored array); the store keeps exactly
one embedding row per job (keys stay duplicate-free and the job's row
count is 1, with model name, vector, `dim` and timestamp replaced); and
re-reading through `get_active_job_embeddings` returns the very same
vector for that active job (the JSON round trip is lossless). -/
theorem upsert_embedding_dim_and_roundtrip (s : StoreState)
    (uuid model : String) (emb : List ℚ) (now : Nat) :
    (getEmbedding (upsert_embedding s uuid model emb now) uuid =
      some { model_name := model
             embedding := emb
             dim := emb.length
             embedded_at := now }) ∧
    ((s.embeddings.map Prod.fst).Nodup →
      (((upsert_embedding s uuid model emb now).embeddings.map Prod.fst).Nodup ∧
        ((upsert_embedding s uuid model emb now).embeddings.filter
          (fun e => e.1 == uuid)).length = 1)) ∧
    (∀ j : Job, getJob s uuid = some j → j.is_active = true →
      (uuid, j.title.getD "", emb) ∈
        get_active_job_embeddings (upsert_embedding s uuid model emb now)) := by
  refine ⟨getEmbedding_upsert s uuid model emb now, ?_, ?_⟩
  · intro hnd
    have hkeys : ((upsert_embedding s uuid model emb now).embeddings.map
        Prod.fst).Nodup := by
      unfold upsert_embedding
      by_cases h : (s.embeddings.any (fun e => e.1 == uuid)) = true
      · rw [if_pos h]
        have : (s.embeddings.map (fun e =>
            if e.1 == uuid then (e.1, newEmbeddingRow model emb now) else e)).map
              Prod.fst = s.embeddings.map Prod.fst := by
          rw [List.map_map]
          refine List.map_congr_left ?_
          intro a _
          by_cases hc : (a.1 == uuid) = true
          · have h1 : a.1 = uuid := by simpa using hc
            simp [h1]
          · have h1 : ¬a.1 = uuid := by simpa using hc
            simp [h1]
        rw [show ({ s with embeddings := (s.embeddings.map (fun e =>
            if e.1 == uuid then (e.1, newEmbeddingRow model emb now) else e)) }
              : StoreState).embeddings = s.embeddings.map (fun e =>
            if e.1 == uuid then (e.1, newEmbeddingRow model emb now) else e)
          from rfl, this]
        exact hnd
      · rw [if_neg h]
        have hnotin : uuid ∉ s.embeddings.map Prod.fst := by
          intro hin
          obtain ⟨e, he, heq⟩ := List.mem_map.1 hin
          have hfalse : s.embeddings.any (fun e => e.1 == uuid) = false := by
            simp only [Bool.not_eq_true] at h; exact h
          have := List.any_eq_false.1 hfalse e he
          simp [heq] at this
        rw [show ({ s with embeddings :=
            s.embeddings ++ [(uuid, newEmbeddingRow model emb now)] }
              : StoreState).embeddings =
            s.embeddings ++ [(uuid, newEmbeddingRow model emb now)] from rfl]
        rw [List.map_append]
        exact List.nodup_append.2 ⟨hnd, List.nodup_singleton _,
          by simpa [List.disjoint_singleton] using hnotin⟩
    refine ⟨hkeys, Nat.le_antisymm (length_filter_key_le_one _ hkeys uuid) ?_⟩
    have hfind : (upsert_embedding s uuid model emb now).embeddings.find?
        (fun e => e.1 == uuid) ≠ none := by
      intro hcontra
      have := getEmbedding_upsert s uuid model emb now
      unfold getEmbedding at this
      rw [hcontra] at this
      simp at this
    obtain ⟨e1, hfind⟩ := Option.ne_none_iff_exists'.1 hfind
    have hmem := List.mem_of_find?_eq_some hfind
    have hpe1 : (e1.1 == uuid) = true := by
      have := List.find?_some hfind; simpa using this
    have : e1 ∈ (upsert_embedding s uuid model emb now).embeddings.filter
        (fun e => e.1 == uuid) := List.mem_filter.2 ⟨hmem, hpe1⟩
    exact List.length_pos.2 (List.ne_nil_of_mem this)
  · intro j hj hact
    unfold getJob at hj
    have hmem := List.mem_of_find?_eq_some hj
    have hju : j.job_uuid = uuid := by
      have := List.find?_some hj; simpa using this
    unfold get_active_job_embeddings
    refine List.mem_filterMap.2 ⟨j, ?_, ?_⟩
    · rw [upsert_embedding_jobs]
      exact hmem
    · rw [if_pos hact, hju, getEmbedding_upsert]
      rfl

/-- A second store, with an active job and a stale embedding row for it. -/
def storeE : StoreState :=
  { jobs := [jobD1]
    embeddings :=
      [("u1", { model_name := "old"
                embedding := [1, 0]
                dim := 2
                embedded_at := 0 })] }

/-- C6 witness: upserting a 3-component vector for `"u1"` on `storeE`
replaces the stale row, stores `dim = 3`, keeps exactly one row for the
job, and `get_active_job_embeddings` returns the same vector. -/
theorem upsert_embedding_dim_and_roundtrip_witness :
    (getEmbedding (upsert_embedding storeE "u1" "new" [1/2, 1/3, 1/6] 7) "u1" =
      some { model_name := "new"
             embedding := [1/2, 1/3, 1/6]
             dim := 3
             embedded_at := 7 }) ∧
    (((upsert_embedding storeE "u1" "new" [1/2, 1/3, 1/6] 7).embeddings.map
        Prod.fst).Nodup ∧
      ((upsert_embedding storeE "u1" "new" [1/2, 1/3, 1/6] 7).embeddings.filter
        (fun e => e.1 == "u1")).length = 1) ∧
    ("u1", "T1", [1/2, 1/3, 1/6]) ∈
      get_active_job_embeddings (upsert_embedding storeE "u1" "new"
        [1/2, 1/3, 1/6] 7) := by
  obtain ⟨h1, h2, h3⟩ :=
    upsert_embedding_dim_and_roundtrip storeE "u1" "new" [1/2, 1/3, 1/6] 7
  exact ⟨by simpa using h1, h2 (by decide),
    by simpa using h3 jobD1 rfl rfl⟩

/-! ### C3 -/

/-- A two-job store in which both jobs match a trivial filter; used to
exhibit the `total` behavior of `GET /api/jobs`. -/
def jobA : Job :=
  { job_uuid := "a"
    first_seen_run_id := "r1"
    last_seen_run_id := "r1"
    is_active := true
    first_seen_at := 0
    last_seen_at := 0
    title := some "TA"
    company_name := none
    location := none
    description := some "DA"
    raw_json := some "rawA" }

def jobB : Job :=
  { jobA with job_uuid := "b", title := some "TB", description := some "DB" }

def storeAB : StoreState :=
  { jobs := [jobA, jobB], embeddings := [] }

/-- C3 counterexample: with two matching jobs and `limit = 1`,
`list_jobs` reports `total = 1` — the size of the returned page — while
the count of all matching jobs is `2`.  The claim that `total` is "the
count of all jobs matching the filter, not merely the number of jobs in
the returned page" is false on the code (`server.py` line 54 returns
`len(jobs)` of the page). -/
theorem list_jobs_total_cex :
    (list_jobs storeAB (fun _ => true) 1 0).total = 1 ∧
    (storeAB.jobs.filter (fun _ => true)).length = 2 ∧
    (list_jobs storeAB (fun _ => true) 1 0).total ≠
      (storeAB.jobs.filter (fun _ => true)).length := by
  refine ⟨rfl, rfl, ?_⟩
  decide

/-- C3 (amended): `GET /api/jobs` returns the `limit`-sized page at
`offset` of the matching jobs, and its `total` equals the number of jobs
in the returned page — `min limit (matching - offset)` — not the count of
all matching jobs. -/
theorem list_jobs_total_is_page_length (s : StoreState)
    (matchesRow : Job → Bool) (limit offset : Nat) :
    (list_jobs s matchesRow limit offset).jobs =
      ((s.jobs.filter matchesRow).drop offset).take limit ∧
    (list_jobs s matchesRow limit offset).total =
      (list_jobs s matchesRow limit offset).jobs.length ∧
    (list_jobs s matchesRow limit offset).total =
      min limit ((s.jobs.filter matchesRow).length - offset) := by
  refine ⟨rfl, rfl, ?_⟩
  show (((s.jobs.filter matchesRow).drop offset).take limit).length = _
  rw [List.length_take, List.length_drop]

/-! ### C9 -/

/-- C9: `GET /api/jobs/{job_uuid}` returns HTTP 404 — never a server
error — when the identifier is absent from storage, and the full job
record when it is present. -/
theorem api_get_job_contract (s : StoreState) (uuid : String) :
    (store_get_job s uuid = none → api_get_job s uuid = .error 404) ∧
    (∀ j : Job, store_get_job s uuid = some j → api_get_job s uuid = .ok j) := by
  constructor
  · intro h
    unfold api_get_job
    rw [h]
  · intro j h
    unfold api_get_job
    rw [h]

/-- C9 witness: an unknown uuid on the two-job store yields 404; a known
one yields its record. -/
theorem api_get_job_contract_witness :
    api_get_job storeAB "missing" = .error 404 ∧
    api_get_job storeAB "a" = .ok jobA :=
  ⟨(api_get_job_contract storeAB "missing").1 rfl,
    (api_get_job_contract storeAB "a").2 jobA rfl⟩

/-! ### C4 -/

/-- C4: storage-backend selection of `crawl-incremental`: a given remote
connection string always wins; otherwise the given local file path is
used; with neither, the local path defaults to `data/mcf.duckdb`. -/
theorem select_backend_semantics (conn path : String) :
    (∀ db : Option String, selectBackend (some conn) db = .remoteConn conn) ∧
    selectBackend none (some path) = .localFile path ∧
    selectBackend none none = .localFile "data/mcf.duckdb" :=
  ⟨fun _ => rfl, rfl, rfl⟩

/-! ### C8 -/

/-- Three job embeddings whose dot products with the resume vector `[1]`
are `0.1`, `0.5` and `0.9`. -/
def exampleJobs : List (String × String × List ℚ) :=
  [("j3", "Job Three", [1/10]), ("j2", "Job Two", [1/2]),
    ("j1", "Job One", [9/10])]

/-- C8: `match-resume` scores every active job embedding by the dot
product with the resume vector, lists them in descending score order
(the output is a truncation of a descending-sorted permutation of the
scored jobs), and keeps `max 1 top` entries; in particular, `top = 2`
over scores `0.9 / 0.5 / 0.1` yields exactly the `0.9` and `0.5` jobs in
that order, and a non-positive `top` still yields one result. -/
theorem match_resume_ranking (rv : List ℚ)
    (jobs : List (String × String × List ℚ)) (top : Int) :
    (matchResume rv jobs top).Pairwise (fun a b => b.1 ≤ a.1) ∧
    (matchResume rv jobs top).length = min (max 1 top).toNat jobs.length ∧
    (∃ ranked : List (ℚ × String × String),
      ranked.Perm (jobs.map (fun j => (dot rv j.2.2, j.1, j.2.1))) ∧
      ranked.Pairwise (fun a b => b.1 ≤ a.1) ∧
      matchResume rv jobs top = ranked.take (max 1 top).toNat) ∧
    matchResume [1] exampleJobs 2 =
      [(9/10, "j1", "Job One"), (1/2, "j2", "Job Two")] ∧
    (matchResume [1] exampleJobs 0).length = 1 ∧
    (matchResume [1] exampleJobs (-5)).length = 1 := by
  have hdef : matchResume rv jobs top =
      ((jobs.map (fun j => (dot rv j.2.2, j.1, j.2.1))).insertionSort
        scoreRel).take (max 1 top).toNat := rfl
  have hsorted : ((jobs.map (fun j => (dot rv j.2.2, j.1, j.2.1))).insertionSort
      scoreRel).Pairwise scoreRel :=
    List.sorted_insertionSort scoreRel _
  have hperm := List.perm_insertionSort scoreRel
    (jobs.map (fun j => (dot rv j.2.2, j.1, j.2.1)))
  refine ⟨?_, ?_, ⟨_, hperm, hsorted, hdef⟩, ?_, ?_, ?_⟩
  · rw [hdef]
    exact hsorted.sublist (List.take_sublist _ _)
  · rw [hdef, List.length_take, hperm.length_eq, List.length_map]
  · norm_num [matchResume, exampleJobs, dot, scoreRel]
    show List.take ((2:Int).toNat) _ = _
    rw [show ((2:Int).toNat) = 2 from rfl]
    rw [List.take_succ_cons, List.take_succ_cons, List.take_zero]
  · norm_num [matchResume, exampleJobs, dot, scoreRel]
  · norm_num [matchResume, exampleJobs, dot, scoreRel]

/-- C8 witness: the general conjuncts instantiated at the example jobs. -/
theorem match_resume_ranking_witness :
    (matchResume [1] exampleJobs 2).Pairwise (fun a b => b.1 ≤ a.1) ∧
    (matchResume [1] exampleJobs 2).length = min 2 exampleJobs.length :=
  ⟨(match_resume_ranking [1] exampleJobs 2).1,
    (match_resume_ranking [1] exampleJobs 2).2.1⟩

/-! ### C7 -/

/-- The `RunStats` dataclass of duckdb_store.py. -/
structure RunStats where
  run_id : String
  started_at : Timestamp
  finished_at : Option Timestamp
  total_seen : Nat
  added : Nat
  maintained : Nat
  removed : Nat
  deriving DecidableEq, Repr

/-- `DuckDBStore.begin_run` (duckdb_store.py lines 98-117): the run
record returned to the caller, whose `run_id` is
`started_at.strftime("%Y%m%dT%H%M%S.%fZ")` and whose counters start at
zero with a null finish time.  (The accompanying `INSERT INTO crawl_runs`
only persists these same values and is not needed by any claim.) -/
def begin_run (started_at : Timestamp) : RunStats :=
  { run_id := runId started_at
    started_at := started_at
    finished_at := none
    total_seen := 0
    added := 0
    maintained := 0
    removed := 0 }

/-- Lexicographic order on `Char` lists is preserved by appending
arbitrary tails after equal-length prefixes already in order. -/
theorem lt_append_left : ∀ {l1 l2 t1 t2 : List Char}, List.lt l1 l2 →
    l1.length = l2.length → List.lt (l1 ++ t1) (l2 ++ t2) := by
  intro l1 l2 t1 t2 h
  induction h with
  | nil b bs => intro hlen; simp at hlen
  | head as bs hab => intro _; exact List.lt.head _ _ hab
  | tail hna hnb h ih =>
    intro hlen
    exact List.lt.tail hna hnb (ih (by simpa using hlen))

/-- Lexicographic order on `Char` lists is preserved under a common
prefix. -/
theorem lt_append_right : ∀ (l : List Char) {t1 t2 : List Char},
    List.lt t1 t2 → List.lt (l ++ t1) (l ++ t2) := by
  intro l t1 t2 h
  induction l with
  | nil => simpa using h
  | cons a as ih => exact List.lt.tail (lt_irrefl a) (lt_irrefl a) ih

theorem lt_cons_same (c : Char) {t1 t2 : List Char} (h : List.lt t1 t2) :
    List.lt (c :: t1) (c :: t2) :=
  List.lt.tail (lt_irrefl c) (lt_irrefl c) h

theorem length_padNat : ∀ (w n : Nat), (padNat w n).length = w := by
  intro w
  induction w with
  | zero => intro n; rfl
  | succ w ih => intro n; simp [padNat, ih]

theorem digitChar_lt {d1 d2 : Nat} (h : d1 < d2) (h9 : d2 ≤ 9) :
    digitChar d1 < digitChar d2 := by
  interval_cases d2 <;> interval_cases d1 <;> decide

/-- Zero-padded fixed-width decimal rendering is strictly monotone in the
rendered number. -/
theorem padNat_lt : ∀ (w : Nat) {n1 n2 : Nat}, n1 < n2 → n2 < 10 ^ w →
    List.lt (padNat w n1) (padNat w n2) := by
  intro w
  induction w with
  | zero =>
    intro n1 n2 h12 h2
    rw [pow_zero] at h2
    omega
  | succ w ih =>
    intro n1 n2 h12 h2
    show List.lt (padNat w (n1 / 10) ++ [digitChar (n1 % 10)])
      (padNat w (n2 / 10) ++ [digitChar (n2 % 10)])
    rcases Nat.lt_trichotomy (n1 / 10) (n2 / 10) with hq | hq | hq
    · refine lt_append_left (ih hq ?_) (by rw [length_padNat, length_padNat])
      rw [pow_succ] at h2
      omega
    · rw [hq]
      apply lt_append_right
      exact List.lt.head _ _ (digitChar_lt (by omega) (by omega))
    · omega

/-- One fixed-width segment of the identifier: a strictly smaller number,
or an equal number followed by tails in order, keeps the whole strings in
order. -/
theorem seg_lt (w : Nat) {n1 n2 : Nat} (r1 r2 : List Char)
    (h1 : n1 < 10 ^ w) (h2 : n2 < 10 ^ w)
    (hor : n1 < n2 ∨ (n1 = n2 ∧ List.lt r1 r2)) :
    List.lt (padNat w n1 ++ r1) (padNat w n2 ++ r2) := by
  rcases hor with h | ⟨heq, hr⟩
  · exact lt_append_left (padNat_lt w h h2) (by rw [length_padNat, length_padNat])
  · subst heq
    exact lt_append_right _ hr

/-- C7: `begin_run` renders the UTC start instant as
`%Y%m%dT%H%M%S.%fZ`, and identifiers of runs begun at strictly increasing
wall-clock instants compare strictly increasing in the lexicographic
`String` order. -/
theorem run_id_lex_monotone (t1 t2 : Timestamp)
    (h1 : t1.Valid) (h2 : t2.Valid) (h : chronoKey t1 < chronoKey t2) :
    (begin_run t1).run_id < (begin_run t2).run_id := by
  obtain ⟨hy1lo, hy1hi, hm1lo, hm1hi, hd1lo, hd1hi, hh1, hmin1, hs1, hu1⟩ := h1
  obtain ⟨hy2lo, hy2hi, hm2lo, hm2hi, hd2lo, hd2hi, hh2, hmin2, hs2, hu2⟩ := h2
  have e4 : (10:Nat) ^ 4 = 10000 := by norm_num
  have e2 : (10:Nat) ^ 2 = 100 := by norm_num
  have e6 : (10:Nat) ^ 6 = 1000000 := by norm_num
  have hdec : t1.year < t2.year ∨ (t1.year = t2.year ∧
      (t1.month < t2.month ∨ (t1.month = t2.month ∧
      (t1.day < t2.day ∨ (t1.day = t2.day ∧
      (t1.hour < t2.hour ∨ (t1.hour = t2.hour ∧
      (t1.minute < t2.minute ∨ (t1.minute = t2.minute ∧
      (t1.second < t2.second ∨ (t1.second = t2.second ∧
      t1.micro < t2.micro))))))))))) := by
    unfold chronoKey at h
    omega
  have hlt : List.lt (runIdChars t1) (runIdChars t2) := ?_
  · rw [String.lt_iff_toList_lt]
    show List.Lex (· < ·) (runIdChars t1) (runIdChars t2)
    exact (List.lt_iff_lex_lt _ _).1 hlt
  unfold runIdChars
  refine seg_lt 4 _ _ (by rw [e4]; omega) (by rw [e4]; omega) ?_
  rcases hdec with hy | ⟨hy, hdec⟩
  · exact Or.inl hy
  refine Or.inr ⟨hy, ?_⟩
  refine seg_lt 2 _ _ (by rw [e2]; omega) (by rw [e2]; omega) ?_
  rcases hdec with hm | ⟨hm, hdec⟩
  · exact Or.inl hm
  refine Or.inr ⟨hm, ?_⟩
  refine seg_lt 2 _ _ (by rw [e2]; omega) (by rw [e2]; omega) ?_
  rcases hdec with hd | ⟨hd, hdec⟩
  · exact Or.inl hd
  refine Or.inr ⟨hd, ?_⟩
  refine lt_cons_same 'T' ?_
  refine seg_lt 2 _ _ (by rw [e2]; omega) (by rw [e2]; omega) ?_
  rcases hdec with hh | ⟨hh, hdec⟩
  · exact Or.inl hh
  refine Or.inr ⟨hh, ?_⟩
  refine seg_lt 2 _ _ (by rw [e2]; omega) (by rw [e2]; omega) ?_
  rcases hdec with hmin | ⟨hmin, hdec⟩
  · exact Or.inl hmin
  refine Or.inr ⟨hmin, ?_⟩
  refine seg_lt 2 _ _ (by rw [e2]; omega) (by rw [e2]; omega) ?_
  rcases hdec with hs | ⟨hs, hdec⟩
  · exact Or.inl hs
  refine Or.inr ⟨hs, ?_⟩
  refine lt_cons_same '.' ?_
  exact seg_lt 6 _ _ (by rw [e6]; omega) (by rw [e6]; omega) (Or.inl hdec)

/-- A pair of concrete UTC instants, the second one later. -/
def tsEarlier : Timestamp :=
  { year := 2026
    month := 10
    day := 12
    hour := 3
    minute := 4
    second := 5
    micro := 123456 }

def tsLater : Timestamp :=
  { tsEarlier with second := 6, micro := 0 }

/-- C7 witness: two concrete instants one microsecond-bearing second
apart produce lexicographically increasing identifiers. -/
theorem run_id_lex_monotone_witness :
    (begin_run tsEarlier).run_id < (begin_run tsLater).run_id :=
  run_id_lex_monotone tsEarlier tsLater (by decide) (by decide) (by decide)

end MCF
